import Mathlib

/-!
Shallow embedding, in Lean 4, of the parts of the go_learning repository that
the verified claims are about, together with the theorems settling those
claims.

Source files embedded here:
- functions/functions.go : divide, safeDivide, validateEmail
- concurrency/goroutines_channels.go : fibonacci, poolWorker
- main.go : executeChoice and the menu loop
- select/main.go : the mutex-protected counter (increment, 5 goroutines)
- backend/http_server.go : HTTPServerExamples route registration,
  rateLimitMiddleware

Conventions: Go int is modelled as Int (the claims involve no overflow);
Go float64 is modelled as Rat, which is adequate because the only property
at issue is the zero test of the divisor and the returned error; a Go
(value, error) pair is modelled as a pair whose second component is
Option String, where none models a nil error and some msg models a non-nil
error carrying the message msg; a Go runtime panic (integer division by
zero) is modelled as the value none of an Option result type; time.Time
values are modelled as Nat timestamps in seconds, with one minute equal to 60.
-/

/-- The most negative 64-bit Go int, -2 to the 63. -/
def int64Min : Int := -9223372036854775808

/-- The most positive 64-bit Go int, 2 to the 63 minus 1. -/
def int64Max : Int := 9223372036854775807

/-- Wraps an unbounded integer into the 64-bit two-complement range
[int64Min, int64Max]: the written numerals are 2 to the 63 and 2 to the
64. Go int arithmetic wraps on overflow with these semantics. -/
def wrapInt64 (v : Int) : Int :=
  (v + 9223372036854775808) % 18446744073709551616 - 9223372036854775808

/-- Embeds divide from functions/functions.go. Go integer division
truncates toward zero, which is exactly Int.tdiv and Int.tmod, and the
result is a fixed-width Go int, so it wraps on overflow: per the Go
specification, int64Min / -1 yields int64Min with remainder 0 by
two-complement wrap-around, the one overflowing division of representable
operands. Go traps on a zero divisor at run time; the trap is modelled as
none. -/
def divide (dividend divisor : Int) : Option (Int × Int) :=
  if divisor = 0 then none
  else some (wrapInt64 (Int.tdiv dividend divisor),
    wrapInt64 (Int.tmod dividend divisor))

/-- Embeds safeDivide from functions/functions.go, with float64 modelled as
Rat. The code returns the pair (0, error "division by zero") when b == 0 and
(a / b, nil) otherwise. -/
def safeDivide (a b : Rat) : Rat × Option String :=
  if b = 0 then (0, some ("division by zero"))
  else (a / b, none)

/-- Embeds validateEmail from functions/functions.go. The code calls
strings.Contains with the one-character needles "@" and ".", which is
containment of the character; the string is viewed as its character list. -/
def validateEmail (email : String) : Option String :=
  if ¬ ('@' ∈ email.data) then some ("email must contain @ symbol")
  else if ¬ ('.' ∈ email.data) then some ("email must contain domain extension")
  else none

/-- Embeds fibonacci from concurrency/goroutines_channels.go: the simple
recursive implementation on Go int, returning n itself whenever n <= 1. -/
def fibonacci (n : Int) : Int :=
  if n ≤ 1 then n
  else fibonacci (n - 1) + fibonacci (n - 2)
termination_by n.toNat
decreasing_by
  all_goals omega

/-- Embeds the job-to-result behaviour of poolWorker from
concurrency/goroutines_channels.go: for every job received from the jobs
channel the worker sends fibonacci of the job on the results channel. The
prints and the sleep do not affect the values sent. -/
def poolWorker (jobs : List Int) : List Int :=
  jobs.map fibonacci

/-- The seven learning modules that the menu in main.go can dispatch to,
one per case of the switch in executeChoice. -/
inductive MenuModule where
  | basicSyntax
  | controlStructures
  | functionsModule
  | structsInterfaces
  | backendConcepts
  | concurrencyModule
  | allExamples
deriving DecidableEq

/-- Result of one call of executeChoice in main.go: either exactly one
module is run, or the default branch prints the invalid-choice error and
runs no module. -/
inductive ChoiceResult where
  | runModule (m : MenuModule)
  | invalidChoice
deriving DecidableEq

/-- Embeds executeChoice from main.go: a switch on the input string with
cases "1" through "7" and a default branch. -/
def executeChoice (choice : String) : ChoiceResult :=
  if choice = "1" then .runModule .basicSyntax
  else if choice = "2" then .runModule .controlStructures
  else if choice = "3" then .runModule .functionsModule
  else if choice = "4" then .runModule .structsInterfaces
  else if choice = "5" then .runModule .backendConcepts
  else if choice = "6" then .runModule .concurrencyModule
  else if choice = "7" then .runModule .allExamples
  else .invalidChoice

/-- Outcome of one iteration of the menu loop in main.go: either the loop
terminates (break on input "0"), or it runs executeChoice and then loops,
redisplaying the menu at the top of the next iteration. -/
inductive LoopStep where
  | exitLoop
  | iterate (r : ChoiceResult)
deriving DecidableEq

/-- Embeds one iteration of the for loop in main of main.go: input "0"
breaks out of the loop before executeChoice is called; every other input is
passed to executeChoice and the loop continues. -/
def mainStep (choice : String) : LoopStep :=
  if choice = "0" then .exitLoop
  else .iterate (executeChoice choice)

/-- State of the mutex-counter example of select/main.go: the shared counter
together with, for each of the goroutines, how many of its increments are
still to be executed. -/
structure CounterState where
  counter : Nat
  rem : List Nat
deriving DecidableEq

/-- One critical section of increment in select/main.go, executed by
goroutine i: between mu.Lock() and mu.Unlock() the goroutine performs
exactly counter++, so each critical section is one atomic step of the
interleaving. Selecting a goroutine whose loop already finished leaves the
state unchanged. -/
def lockedIncrement (s : CounterState) (i : Nat) : CounterState :=
  if 0 < s.rem.getD i 0 then ⟨s.counter + 1, s.rem.set i (s.rem.getD i 0 - 1)⟩
  else s

/-- Initial state of the mutex-counter example: counter = 0 and 5 goroutines
of 1000 increments each, the constants of select/main.go. -/
def initCounterState : CounterState := ⟨0, List.replicate 5 1000⟩

/-- Runs the mutex-counter example under an arbitrary interleaving: the
schedule lists, in order, which goroutine executes its next critical
section. The mutex guarantees the critical sections do not overlap, so
every execution of the program is some schedule. -/
def runSchedule (sched : List Nat) : CounterState :=
  sched.foldl lockedIncrement initCounterState

/-- A complete schedule for the mutex-counter example: goroutine 0 runs its
1000 critical sections, then goroutine 1, and so on. -/
def seqSchedule : List Nat :=
  List.replicate 1000 0 ++ List.replicate 1000 1 ++ List.replicate 1000 2 ++
    List.replicate 1000 3 ++ List.replicate 1000 4

/-- The four handler functions that HTTPServerExamples of
backend/http_server.go registers on its mux. -/
inductive GoHandler where
  | homeHandler
  | healthHandler
  | usersHandler
  | userByIDHandler
deriving DecidableEq

/-- Embeds the mux.HandleFunc calls of HTTPServerExamples in
backend/http_server.go, in source order: the route patterns with the
handlers they are bound to. -/
def serverMux : List (String × GoHandler) :=
  [("/", .homeHandler), ("/api/health", .healthHandler),
   ("/api/users", .usersHandler), ("/api/users/", .userByIDHandler)]

/-- The route patterns registered on the mux by HTTPServerExamples. -/
def registeredRoutes : List String := serverMux.map Prod.fst

/-- State of the rate limiter of rateLimitMiddleware in
backend/http_server.go: the requests map from client IP to the recorded
request timestamps, where an IP absent from the Go map is an IP mapped to
the empty list. -/
def RLState : Type := String → List Nat

/-- Embeds the cleaning loop of rateLimitMiddleware: keep exactly the
timestamps at most one minute old. With Nat timestamps the Go test
now.Sub(reqTime) <= time.Minute is now - t <= 60, and a timestamp later
than now is kept by both (a negative duration in Go, a truncated zero
difference here). -/
def pruneTimes (now : Nat) (ts : List Nat) : List Nat :=
  ts.filter (fun t => now - t ≤ 60)

/-- Map update, modelling the assignment requests[clientIP] = ... of
rateLimitMiddleware. -/
def updateMap (st : RLState) (ip : String) (v : List Nat) : RLState :=
  fun j => if j = ip then v else st j

/-- Embeds the body of the handler returned by rateLimitMiddleware in
backend/http_server.go, for one request of client ip at time now. It first
prunes the timestamps of ip older than one minute and stores the pruned
list; if 10 or more timestamps remain, it answers 429 without recording the
request (the Bool is false); otherwise it appends now to the timestamps of
ip and forwards the request (the Bool is true). -/
def rateLimitStep (st : RLState) (ip : String) (now : Nat) : RLState × Bool :=
  if 10 ≤ (pruneTimes now (st ip)).length then
    (updateMap st ip (pruneTimes now (st ip)), false)
  else
    (updateMap st ip (pruneTimes now (st ip) ++ [now]), true)

/-- The empty requests map rateLimitMiddleware starts from. -/
def initRL : RLState := fun _ => []

/-- Runs the rate limiter over a sequence of requests, each a client IP with
its arrival time. -/
def runRL (reqs : List (String × Nat)) : RLState :=
  reqs.foldl (fun st req => (rateLimitStep st req.1 req.2).1) initRL

/-- Claim C1: the function divide, applied to dividend 17 and divisor 5,
returns the pair (3, 2), that is quotient 3 and remainder 2. -/
theorem divide_seventeen_five : divide 17 5 = some (3, 2) := by decide

/-- Claim C2: validateEmail applied to the string "invalid-email" returns a
non-nil error, and validateEmail applied to the string "user@example.com"
returns nil. -/
theorem validateEmail_examples :
    (validateEmail ("invalid-email")).isSome = true ∧
    validateEmail ("user@example.com") = none := by
  decide

/-- Claim C3: the fibonacci function used by the worker-pool example
satisfies fibonacci 6 = 8, so a worker given job 6 sends the result 8 on
the results channel. -/
theorem fibonacci_six_and_worker : fibonacci 6 = 8 ∧ poolWorker [6] = [8] := by
  constructor
  · simp [fibonacci]
  · simp [poolWorker, fibonacci]

/-- Claim C5: the strings "1" through "7" cause executeChoice to dispatch
to exactly the corresponding learning module, the string "0" terminates the
menu loop, and every other string causes the invalid-choice branch, which
prints the error, runs no module, and lets the loop continue to the next
iteration, where the menu is displayed again. -/
theorem menu_dispatch :
    mainStep ("0") = .exitLoop ∧
    mainStep ("1") = .iterate (.runModule .basicSyntax) ∧
    mainStep ("2") = .iterate (.runModule .controlStructures) ∧
    mainStep ("3") = .iterate (.runModule .functionsModule) ∧
    mainStep ("4") = .iterate (.runModule .structsInterfaces) ∧
    mainStep ("5") = .iterate (.runModule .backendConcepts) ∧
    mainStep ("6") = .iterate (.runModule .concurrencyModule) ∧
    mainStep ("7") = .iterate (.runModule .allExamples) ∧
    ∀ s : String, s ≠ "0" → s ≠ "1" → s ≠ "2" → s ≠ "3" → s ≠ "4" →
      s ≠ "5" → s ≠ "6" → s ≠ "7" → mainStep s = .iterate .invalidChoice := by
  refine ⟨by decide, by decide, by decide, by decide, by decide, by decide,
    by decide, by decide, ?_⟩
  intro s h0 h1 h2 h3 h4 h5 h6 h7
  simp [mainStep, executeChoice, h0, h1, h2, h3, h4, h5, h6, h7]

/-- Witness for claim C5, at the concrete invalid input "9". -/
theorem menu_dispatch_witness : mainStep ("9") = .iterate .invalidChoice :=
  menu_dispatch.2.2.2.2.2.2.2.2 ("9") (by decide) (by decide) (by decide)
    (by decide) (by decide) (by decide) (by decide) (by decide)

/-- Claim C6: safeDivide a b returns a non-nil error if and only if b
equals zero, in that error case the returned value is 0, and for every b
not equal to zero it returns a nil error. -/
theorem safeDivide_error_iff (a b : Rat) :
    ((safeDivide a b).2.isSome = true ↔ b = 0) ∧
    (b = 0 → (safeDivide a b).1 = 0) ∧
    (b ≠ 0 → (safeDivide a b).2 = none) := by
  by_cases hb : b = 0 <;> simp [safeDivide, hb]

/-- Witness for claim C6, at the concrete inputs (1, 0) and (3, 2). -/
theorem safeDivide_error_iff_witness :
    (safeDivide 1 0).2.isSome = true ∧
    (safeDivide 1 0).1 = 0 ∧
    (safeDivide 3 2).2 = none :=
  ⟨((safeDivide_error_iff 1 0).1).mpr rfl,
   (safeDivide_error_iff 1 0).2.1 rfl,
   (safeDivide_error_iff 3 2).2.2 (by norm_num)⟩

/-- Claim C7 counterexample: HTTPServerExamples registers the route
pattern "/api/users/" as well, so the mux does not carry exactly the three
routes "/", "/api/health" and "/api/users". -/
theorem serverMux_extra_route :
    ("/api/users/" : String) ∈ registeredRoutes ∧
    ("/api/users/" : String) ∉ (["/", "/api/health", "/api/users"] : List String) ∧
    registeredRoutes.length ≠ 3 := by
  decide

/-- Claim C7 as amended: the non-started HTTP server definition registers
exactly four routes on its mux, namely "/", "/api/health", "/api/users"
and "/api/users/", and no others. -/
theorem serverMux_four_routes :
    registeredRoutes = ["/", "/api/health", "/api/users", "/api/users/"] := by
  decide

/-- The absolute value of the Go remainder is the Nat remainder of the
absolute values, by cases on the signs of the two operands. -/
lemma natAbs_tmod (a b : Int) : (Int.tmod a b).natAbs = a.natAbs % b.natAbs := by
  cases a <;> cases b <;>
    simp only [Int.tmod, Int.natAbs_neg, Int.natAbs_ofNat, Int.natAbs_negSucc] <;>
    rfl

/-- The absolute value of the Go quotient is the Nat quotient of the
absolute values, by cases on the signs of the two operands. -/
lemma natAbs_tdiv (a b : Int) : (Int.tdiv a b).natAbs = a.natAbs / b.natAbs := by
  cases a <;> cases b <;>
    simp only [Int.tdiv, Int.natAbs_neg, Int.natAbs_ofNat, Int.natAbs_negSucc] <;>
    rfl

/-- Wrapping is the identity on values already in the 64-bit range. -/
lemma wrapInt64_eq_self (v : Int) (h1 : int64Min ≤ v) (h2 : v ≤ int64Max) :
    wrapInt64 v = v := by
  unfold wrapInt64 int64Min int64Max at *
  omega

/-- The truncated remainder of 64-bit representable operands is itself
representable, because its absolute value is below the absolute value of
the divisor. -/
lemma tmod_range (a b : Int) (hb : b ≠ 0)
    (hb1 : int64Min ≤ b) (hb2 : b ≤ int64Max) :
    int64Min ≤ Int.tmod a b ∧ Int.tmod a b ≤ int64Max := by
  have h1 : (Int.tmod a b).natAbs < b.natAbs := by
    rw [natAbs_tmod]
    exact Nat.mod_lt _ (Int.natAbs_pos.mpr hb)
  unfold int64Min int64Max at *
  omega

/-- The truncated quotient of 64-bit representable operands is itself
representable, except at the overflowing pair (int64Min, -1). -/
lemma tdiv_range (a b : Int) (hb : b ≠ 0) (hsp : ¬ (a = int64Min ∧ b = -1))
    (ha1 : int64Min ≤ a) (ha2 : a ≤ int64Max)
    (hb1 : int64Min ≤ b) (hb2 : b ≤ int64Max) :
    int64Min ≤ Int.tdiv a b ∧ Int.tdiv a b ≤ int64Max := by
  have hq : (Int.tdiv a b).natAbs = a.natAbs / b.natAbs := natAbs_tdiv a b
  have hle : (Int.tdiv a b).natAbs ≤ a.natAbs := by
    rw [hq]
    exact Nat.div_le_self _ _
  unfold int64Min int64Max at *
  by_cases hbig : Int.tdiv a b = 9223372036854775808
  · exfalso
    have h2 : a.natAbs / b.natAbs = 9223372036854775808 := by
      rw [← hq, hbig]
      rfl
    have h3 : (9223372036854775808 : Int).natAbs ≤ a.natAbs := by
      rw [← hbig]
      exact hle
    have hana : a.natAbs = 9223372036854775808 := by omega
    have hbone : b.natAbs = 1 := by
      by_contra hne
      have hb2' : 2 ≤ b.natAbs := by
        have := Int.natAbs_pos.mpr hb
        omega
      have hlt : a.natAbs / b.natAbs < a.natAbs :=
        Nat.div_lt_self (by omega) hb2'
      omega
    have hcases : b = 1 ∨ b = -1 := by omega
    rcases hcases with h1 | h1
    · rw [h1, Int.tdiv_one] at hbig
      omega
    · exact hsp ⟨by omega, h1⟩
  · omega

/-- Claim C8 counterexample: at dividend int64Min and divisor -1 the
program wraps the quotient back to int64Min with remainder 0, per the Go
specification of two-complement division overflow, and at that input the
identity a = q * b + r fails over the integers. -/
theorem divide_overflow_counterexample :
    divide int64Min (-1) = some (int64Min, 0) ∧
    int64Min ≠ int64Min * (-1) + 0 := by
  decide

/-- Claim C8 as amended: divide is safe exactly under the precondition
divisor not equal to zero: for every 64-bit representable dividend a and
divisor b not equal to zero, other than the overflowing pair
(int64Min, -1), the result (q, r) is defined and satisfies a = q * b + r
with the absolute value of r smaller than the absolute value of b; at
(int64Min, -1) the quotient wraps back to int64Min with remainder 0; for
b = 0 the division-by-zero trap is reached and the call fails, in
contrast to safeDivide, whose zero test turns the zero divisor into an
error value. -/
theorem divide_spec (a b : Int)
    (ha1 : int64Min ≤ a) (ha2 : a ≤ int64Max)
    (hb1 : int64Min ≤ b) (hb2 : b ≤ int64Max) :
    (b ≠ 0 → ¬ (a = int64Min ∧ b = -1) →
      divide a b = some (Int.tdiv a b, Int.tmod a b) ∧
      a = Int.tdiv a b * b + Int.tmod a b ∧
      (Int.tmod a b).natAbs < b.natAbs) ∧
    divide int64Min (-1) = some (int64Min, 0) ∧
    divide a 0 = none ∧
    (∀ x : Rat, (safeDivide x 0).2.isSome = true) := by
  refine ⟨fun hb hsp => ⟨?_, ?_, ?_⟩, ?_, ?_, ?_⟩
  · have hmr := tmod_range a b hb hb1 hb2
    have hdr := tdiv_range a b hb hsp ha1 ha2 hb1 hb2
    simp only [divide, if_neg hb]
    rw [wrapInt64_eq_self _ hdr.1 hdr.2, wrapInt64_eq_self _ hmr.1 hmr.2]
  · calc a = b * Int.tdiv a b + Int.tmod a b := (Int.tdiv_add_tmod a b).symm
      _ = Int.tdiv a b * b + Int.tmod a b := by ring
  · rw [natAbs_tmod]
    exact Nat.mod_lt _ (Int.natAbs_pos.mpr hb)
  · decide
  · simp [divide]
  · intro x
    simp [safeDivide]

/-- Witness for claim C8, at the concrete inputs (17, 5). -/
theorem divide_spec_witness :
    divide 17 5 = some (Int.tdiv 17 5, Int.tmod 17 5) ∧
    (17 : Int) = Int.tdiv 17 5 * 5 + Int.tmod 17 5 ∧
    (Int.tmod 17 5).natAbs < (5 : Int).natAbs :=
  (divide_spec 17 5 (by decide) (by decide) (by decide) (by decide)).1
    (by decide) (by decide)

/-- Claim C9: for every string e, validateEmail e returns nil exactly when
e contains the character '@' and e contains the character '.'; no other
syntactic check is performed, so the syntactically invalid address "@."
is accepted. -/
theorem validateEmail_none_iff :
    (∀ e : String, validateEmail e = none ↔ ('@' ∈ e.data ∧ '.' ∈ e.data)) ∧
    validateEmail ("@.") = none := by
  constructor
  · intro e
    by_cases h1 : '@' ∈ e.data <;> by_cases h2 : '.' ∈ e.data <;>
      simp [validateEmail, h1, h2]
  · decide

/-- A positive default lookup implies the index is in range. -/
lemma getD_pos_lt (l : List Nat) (i : Nat) (h : 0 < l.getD i 0) : i < l.length := by
  by_contra hc
  rw [List.getD_eq_default _ _ (Nat.le_of_not_lt hc)] at h
  exact Nat.lt_irrefl 0 h

/-- Writing one position of a list of naturals changes the sum by the
difference of the new and the old entry. -/
lemma sum_set_nat : ∀ (l : List Nat) (i : Nat) (v : Nat), i < l.length →
    (l.set i v).sum + l.getD i 0 = l.sum + v := by
  intro l
  induction l with
  | nil =>
    intro i v h
    simp at h
  | cons a t ih =>
    intro i v h
    cases i with
    | zero =>
      simp [List.set]
      omega
    | succ n =>
      simp only [List.set, List.sum_cons, List.getD_cons_succ]
      have := ih n v (by simpa using h)
      omega

/-- Reading back a freshly written position returns the written value. -/
lemma getD_set_self : ∀ (l : List Nat) (i v : Nat), i < l.length →
    (l.set i v).getD i 0 = v := by
  intro l
  induction l with
  | nil =>
    intro i v h
    simp at h
  | cons a t ih =>
    intro i v h
    cases i with
    | zero => rfl
    | succ n =>
      simp only [List.set, List.getD_cons_succ]
      exact ih n v (by simpa using h)

/-- Writing back the value already stored at a position leaves the list
unchanged. -/
lemma set_getD_self : ∀ (l : List Nat) (i : Nat), i < l.length →
    l.set i (l.getD i 0) = l := by
  intro l
  induction l with
  | nil =>
    intro i h
    simp at h
  | cons a t ih =>
    intro i h
    cases i with
    | zero => rfl
    | succ n =>
      simp only [List.set, List.getD_cons_succ]
      rw [ih n (by simpa using h)]

/-- Each critical section preserves the sum of the counter and the
remaining increments of all goroutines. -/
lemma lockedIncrement_invariant (s : CounterState) (i : Nat) :
    (lockedIncrement s i).counter + (lockedIncrement s i).rem.sum
      = s.counter + s.rem.sum := by
  unfold lockedIncrement
  by_cases h : 0 < s.rem.getD i 0
  · rw [if_pos h]
    have hlen := getD_pos_lt s.rem i h
    have hsum := sum_set_nat s.rem i (s.rem.getD i 0 - 1) hlen
    simp only []
    omega
  · rw [if_neg h]

/-- Running any schedule preserves the sum of the counter and the
remaining increments. -/
lemma foldl_locked_invariant (sched : List Nat) : ∀ (s : CounterState),
    (sched.foldl lockedIncrement s).counter
        + (sched.foldl lockedIncrement s).rem.sum
      = s.counter + s.rem.sum := by
  induction sched with
  | nil =>
    intro s
    rfl
  | cons a t ih =>
    intro s
    rw [List.foldl_cons, ih (lockedIncrement s a), lockedIncrement_invariant]

/-- Claim C4: in the mutex-protected counter example of select/main.go,
with 5 goroutines of 1000 mutex-guarded increments each, every
interleaving in which all goroutines complete their increments before the
counter is read yields a final counter value of exactly 5000. -/
theorem mutexCounter_final (sched : List Nat)
    (h : ∀ r ∈ (runSchedule sched).rem, r = 0) :
    (runSchedule sched).counter = 5000 := by
  have hinv := foldl_locked_invariant sched initCounterState
  have hsum : (runSchedule sched).rem.sum = 0 := List.sum_eq_zero h
  have hinit : initCounterState.counter + initCounterState.rem.sum = 5000 := by
    decide
  unfold runSchedule at hsum ⊢
  omega

/-- Running one goroutine for exactly its remaining k increments adds k to
the counter and zeroes its remaining count. -/
lemma drain (i : Nat) : ∀ (k : Nat) (s : CounterState), i < s.rem.length →
    s.rem.getD i 0 = k →
    List.foldl lockedIncrement s (List.replicate k i)
      = ⟨s.counter + k, s.rem.set i 0⟩ := by
  intro k
  induction k with
  | zero =>
    intro s hlen hk
    cases s with
    | mk c rem =>
      simp only [List.replicate, List.foldl_nil, Nat.add_zero] at hk ⊢
      rw [← hk, set_getD_self rem i hlen]
  | succ k ih =>
    intro s hlen hk
    rw [List.replicate_succ, List.foldl_cons]
    have hpos : 0 < s.rem.getD i 0 := by omega
    have hstep : lockedIncrement s i
        = ⟨s.counter + 1, s.rem.set i (s.rem.getD i 0 - 1)⟩ := by
      unfold lockedIncrement
      rw [if_pos hpos]
    rw [hstep]
    have hlen2 : i < (s.rem.set i (s.rem.getD i 0 - 1)).length := by
      rw [List.length_set]
      exact hlen
    have hk2 : (s.rem.set i (s.rem.getD i 0 - 1)).getD i 0 = k := by
      rw [getD_set_self s.rem i (s.rem.getD i 0 - 1) hlen]
      omega
    rw [ih ⟨s.counter + 1, s.rem.set i (s.rem.getD i 0 - 1)⟩ hlen2 hk2]
    simp only [List.set_set, CounterState.mk.injEq]
    exact ⟨by omega, trivial⟩

/-- The sequential schedule drives the example to counter 5000 with every
goroutine done. -/
lemma seq_run_eq : runSchedule seqSchedule = ⟨5000, [0, 0, 0, 0, 0]⟩ := by
  have h0 : List.foldl lockedIncrement initCounterState (List.replicate 1000 0)
      = ⟨1000, [0, 1000, 1000, 1000, 1000]⟩ := by
    rw [drain 0 1000 initCounterState (by decide) (by decide)]
    decide
  have h1 : List.foldl lockedIncrement ⟨1000, [0, 1000, 1000, 1000, 1000]⟩
      (List.replicate 1000 1) = ⟨2000, [0, 0, 1000, 1000, 1000]⟩ := by
    rw [drain 1 1000 ⟨1000, [0, 1000, 1000, 1000, 1000]⟩ (by decide) (by decide)]
    decide
  have h2 : List.foldl lockedIncrement ⟨2000, [0, 0, 1000, 1000, 1000]⟩
      (List.replicate 1000 2) = ⟨3000, [0, 0, 0, 1000, 1000]⟩ := by
    rw [drain 2 1000 ⟨2000, [0, 0, 1000, 1000, 1000]⟩ (by decide) (by decide)]
    decide
  have h3 : List.foldl lockedIncrement ⟨3000, [0, 0, 0, 1000, 1000]⟩
      (List.replicate 1000 3) = ⟨4000, [0, 0, 0, 0, 1000]⟩ := by
    rw [drain 3 1000 ⟨3000, [0, 0, 0, 1000, 1000]⟩ (by decide) (by decide)]
    decide
  have h4 : List.foldl lockedIncrement ⟨4000, [0, 0, 0, 0, 1000]⟩
      (List.replicate 1000 4) = ⟨5000, [0, 0, 0, 0, 0]⟩ := by
    rw [drain 4 1000 ⟨4000, [0, 0, 0, 0, 1000]⟩ (by decide) (by decide)]
    decide
  unfold runSchedule seqSchedule
  rw [List.foldl_append, List.foldl_append, List.foldl_append,
    List.foldl_append, h0, h1, h2, h3, h4]

/-- Under the sequential schedule every goroutine finishes its increments. -/
lemma seq_all_done : ∀ r ∈ (runSchedule seqSchedule).rem, r = 0 := by
  rw [seq_run_eq]
  decide

/-- Witness for claim C4, at the concrete schedule that runs the five
goroutines one after the other. -/
theorem mutexCounter_final_witness : (runSchedule seqSchedule).counter = 5000 :=
  mutexCounter_final seqSchedule seq_all_done

/-- Claim C10 counterexample: two requests, client A at time 0 and client B
at time 120. Handling the request of B prunes only the list of B, so after
that request the recorded list of client A still holds the timestamp 0,
which is not within one minute of the current request time 120; the claimed
invariant over each client therefore fails. -/
theorem rateLimit_stale_other_client :
    (runRL [("A", 0), ("B", 120)]) ("A") = [0] ∧
    ¬ (∀ t ∈ (runRL [("A", 0), ("B", 120)]) ("A"), 120 - t ≤ 60) := by
  decide

/-- Claim C10 as amended: after handling a request of client ip at time
now, provided every recorded list held at most 10 entries before, the list
recorded for ip holds at most 10 entries, all within one minute of now; the
request is rejected with 429 exactly when the pruned list of ip already
holds 10 or more timestamps, on rejection no new timestamp is added for ip,
and the lists of all other clients are left unchanged. -/
theorem rateLimitStep_spec (st : RLState) (ip : String) (now : Nat)
    (hcap : ∀ j, (st j).length ≤ 10) :
    ((rateLimitStep st ip now).1 ip).length ≤ 10 ∧
    (∀ t ∈ (rateLimitStep st ip now).1 ip, now - t ≤ 60) ∧
    ((rateLimitStep st ip now).2 = false ↔
      10 ≤ (pruneTimes now (st ip)).length) ∧
    ((rateLimitStep st ip now).2 = false →
      (rateLimitStep st ip now).1 ip = pruneTimes now (st ip)) ∧
    (∀ j, j ≠ ip → (rateLimitStep st ip now).1 j = st j) := by
  have hfil : (pruneTimes now (st ip)).length ≤ (st ip).length :=
    List.length_filter_le _ _
  have hmem : ∀ t ∈ pruneTimes now (st ip), now - t ≤ 60 := by
    intro t ht
    have := List.mem_filter.mp ht
    simpa using this.2
  by_cases hlen : 10 ≤ (pruneTimes now (st ip)).length
  · refine ⟨?_, ?_, ?_, ?_, ?_⟩
    · simp [rateLimitStep, if_pos hlen, updateMap]
      exact Nat.le_trans hfil (hcap ip)
    · simp [rateLimitStep, if_pos hlen, updateMap]
      intro t ht
      have := hmem t ht
      omega
    · simp [rateLimitStep, if_pos hlen, hlen]
    · intro _
      simp [rateLimitStep, if_pos hlen, updateMap]
    · intro j hj
      simp [rateLimitStep, if_pos hlen, updateMap, hj]
  · refine ⟨?_, ?_, ?_, ?_, ?_⟩
    · simp [rateLimitStep, if_neg hlen, updateMap]
      omega
    · simp [rateLimitStep, if_neg hlen, updateMap]
      intro t ht
      rcases ht with h | h
      · have := hmem t h
        omega
      · omega
    · simp [rateLimitStep, if_neg hlen, hlen]
    · intro hfalse
      simp [rateLimitStep, if_neg hlen] at hfalse
    · intro j hj
      simp [rateLimitStep, if_neg hlen, updateMap, hj]

/-- Witness for claim C10, at the empty requests map with a request of
client A at time 0. -/
theorem rateLimitStep_spec_witness :
    ((rateLimitStep initRL ("A") 0).1 ("A")).length ≤ 10 ∧
    (rateLimitStep initRL ("A") 0).2 = true :=
  ⟨(rateLimitStep_spec initRL ("A") 0 (fun j => by simp [initRL])).1,
   by decide⟩

/-- Witness for claim C9, at the concrete addresses "a@b.c" and "@.". -/
theorem validateEmail_none_iff_witness :
    validateEmail ("a@b.c") = none ∧ validateEmail ("@.") = none :=
  ⟨(validateEmail_none_iff.1 ("a@b.c")).mpr (by decide),
   validateEmail_none_iff.2⟩
